import Mathlib

/-!
Shallow embedding of the queuing-port ring buffer from src/src/main.rs.

The Rust program stores up to MSG_COUNT = 16 messages of MSG_SIZE = 4 bytes
each in a flat byte array of 64 bytes, with a write cursor and a read cursor
advanced modulo MSG_COUNT.  An i32 payload is written through a raw pointer
cast, which on the reference target lays the value out as four little-endian
bytes.  We model the byte array as a list of byte values, the i32 payload as a
mathematical integer constrained to the i32 range, and the pointer write and
read as explicit little-endian encoding and decoding at byte offsets.
The atomic loads and stores of the single-threaded executions the claims
describe collapse to plain reads and writes of the two cursor fields.
-/

namespace QPort

def MSG_COUNT : Nat := 16
def MSG_SIZE : Nat := 4

/-- The i32 range of the Rust payload type. -/
def isI32 (v : Int) : Prop := -(2 ^ 31) ≤ v ∧ v < 2 ^ 31

instance decIsI32 (v : Int) : Decidable (isI32 v) :=
  inferInstanceAs (Decidable (_ ∧ _))

/-- Unsigned 32-bit image of an i32 value, as produced by its memory bytes. -/
def toU32 (v : Int) : Nat := (v % (2 ^ 32)).toNat

/-- Byte number i of the little-endian layout of a 32-bit value. -/
def encByte (u : Nat) (i : Nat) : Nat := u / 256 ^ i % 256

/-- Reassemble a 32-bit value from its four little-endian bytes. -/
def decodeU32 (b0 b1 b2 b3 : Nat) : Nat :=
  b0 + 256 * b1 + 256 ^ 2 * b2 + 256 ^ 3 * b3

/-- Reinterpret a 32-bit pattern as a signed i32 value. -/
def ofU32 (u : Nat) : Int := if u < 2 ^ 31 then (u : Int) else (u : Int) - 2 ^ 32

/-- The four-byte store `ptr.write(item)` at byte offset o of the buffer. -/
def writeI32 (buf : List Nat) (o : Nat) (v : Int) : List Nat :=
  ((((buf.set o (encByte (toU32 v) 0)).set (o + 1) (encByte (toU32 v) 1)).set
      (o + 2) (encByte (toU32 v) 2)).set (o + 3) (encByte (toU32 v) 3))

/-- The four-byte load `ptr.read()` at byte offset o of the buffer. -/
def readI32 (buf : List Nat) (o : Nat) : Int :=
  ofU32 (decodeU32 (buf.getD o 0) (buf.getD (o + 1) 0)
    (buf.getD (o + 2) 0) (buf.getD (o + 3) 0))

/-- The QueuingPort struct: 64-byte buffer, write index, read index. -/
structure QueuingPort where
  buffer : List Nat
  write_index : Nat
  read_index : Nat
deriving DecidableEq, Repr

/-- QueuingPort::new -/
def QueuingPort.new : QueuingPort :=
  { buffer := List.replicate (MSG_COUNT * MSG_SIZE) 0
    write_index := 0
    read_index := 0 }

/-- QueuingPort::enqueue.  The Rust method mutates through a shared reference;
we return the result together with the post state (the pre state when the
method returns early with the Queue full error). -/
def QueuingPort.enqueue (q : QueuingPort) (item : Int) :
    Except String Unit × QueuingPort :=
  let write := q.write_index
  let next := (write + 1) % MSG_COUNT
  if next = q.read_index then
    (.error "Queue full", q)
  else
    (.ok (), { q with
      buffer := writeI32 q.buffer (write * MSG_SIZE) item
      write_index := next })

/-- QueuingPort::dequeue, with the post state returned alongside the result. -/
def QueuingPort.dequeue (q : QueuingPort) : Except String Int × QueuingPort :=
  let read := q.read_index
  if read = q.write_index then
    (.error "Queue empty", q)
  else
    (.ok (readI32 q.buffer (read * MSG_SIZE)),
     { q with read_index := (read + 1) % MSG_COUNT })

/-- Enqueue a list of values in order, stopping at the first failure. -/
def enqueueAll (q : QueuingPort) : List Int → Except String Unit × QueuingPort
  | [] => (.ok (), q)
  | v :: rest =>
    match q.enqueue v with
    | (.ok _, q1) => enqueueAll q1 rest
    | (.error e, q1) => (.error e, q1)

/-- Dequeue n times, collecting the values, stopping at the first failure. -/
def dequeueN : Nat → QueuingPort → Except String (List Int) × QueuingPort
  | 0, q => (.ok [], q)
  | n + 1, q =>
    match q.dequeue with
    | (.ok v, q1) =>
      match dequeueN n q1 with
      | (.ok vs, q2) => (.ok (v :: vs), q2)
      | (.error e, q2) => (.error e, q2)
    | (.error e, q1) => (.error e, q1)

/-- For each value in turn: enqueue it, then immediately dequeue once,
collecting the dequeued values.  Stops at the first failure. -/
def pairs (q : QueuingPort) : List Int → Except String (List Int) × QueuingPort
  | [] => (.ok [], q)
  | v :: rest =>
    match q.enqueue v with
    | (.ok _, q1) =>
      match q1.dequeue with
      | (.ok w, q2) =>
        match pairs q2 rest with
        | (.ok ws, q3) => (.ok (w :: ws), q3)
        | (.error e, q3) => (.error e, q3)
      | (.error e, q2) => (.error e, q2)
    | (.error e, q1) => (.error e, q1)

/-- A single enqueue or dequeue call, for reachability statements. -/
inductive Op where
  | enq (v : Int)
  | deq
deriving DecidableEq, Repr

/-- Apply one operation; a failed operation leaves the state unchanged. -/
def step (q : QueuingPort) : Op → QueuingPort
  | .enq v => (q.enqueue v).2
  | .deq => (q.dequeue).2

/-- Run a sequence of enqueue and dequeue calls from a given state. -/
def run (q : QueuingPort) (ops : List Op) : QueuingPort := ops.foldl step q

/-- Structural well-formedness: cursors in range, buffer of full size. -/
def Inv (q : QueuingPort) : Prop :=
  q.write_index < MSG_COUNT ∧ q.read_index < MSG_COUNT ∧
    q.buffer.length = MSG_COUNT * MSG_SIZE

instance decInv (q : QueuingPort) : Decidable (Inv q) :=
  inferInstanceAs (Decidable (_ ∧ _ ∧ _))

/-- The byte indices written by a call to enqueue in state q. -/
def enqWriteOffsets (q : QueuingPort) : List Nat :=
  [q.write_index * MSG_SIZE, q.write_index * MSG_SIZE + 1,
   q.write_index * MSG_SIZE + 2, q.write_index * MSG_SIZE + 3]

/-- The byte indices read by a call to dequeue in state q. -/
def deqReadOffsets (q : QueuingPort) : List Nat :=
  [q.read_index * MSG_SIZE, q.read_index * MSG_SIZE + 1,
   q.read_index * MSG_SIZE + 2, q.read_index * MSG_SIZE + 3]

/-- The value an i32 payload decodes back to after a store and a load. -/
def stored (v : Int) : Int := ofU32 (toU32 v)

/-! ### Byte-level helper lemmas -/

lemma getD_set_eq (l : List Nat) (i a d : Nat) (h : i < l.length) :
    (l.set i a).getD i d = a := by
  rw [List.getD_eq_getElem _ _ (by simpa using h)]
  simp [List.getElem_set]

lemma getD_set_ne (l : List Nat) (i j a d : Nat) (h : i ≠ j) :
    (l.set i a).getD j d = l.getD j d := by
  by_cases hj : j < l.length
  · rw [List.getD_eq_getElem _ _ (by simpa using hj), List.getD_eq_getElem _ _ hj]
    simp [List.getElem_set, h]
  · rw [List.getD_eq_default _ _ (by simpa using Nat.le_of_not_lt hj),
      List.getD_eq_default _ _ (Nat.le_of_not_lt hj)]

lemma length_writeI32 (buf : List Nat) (o : Nat) (v : Int) :
    (writeI32 buf o v).length = buf.length := by
  simp [writeI32]

lemma toU32_lt (v : Int) : toU32 v < 2 ^ 32 := by
  unfold toU32; omega

lemma decode_enc (u : Nat) (h : u < 2 ^ 32) :
    decodeU32 (encByte u 0) (encByte u 1) (encByte u 2) (encByte u 3) = u := by
  simp only [decodeU32, encByte, pow_zero, pow_one, Nat.div_one]
  omega

lemma stored_eq_self (v : Int) (h : isI32 v) : stored v = v := by
  obtain ⟨h1, h2⟩ := h
  unfold stored ofU32 toU32
  split <;> omega

/-- A byte outside the four stored positions is untouched by writeI32. -/
lemma getD_writeI32_ne (buf : List Nat) (o : Nat) (v : Int) (j : Nat)
    (h : j ≠ o ∧ j ≠ o + 1 ∧ j ≠ o + 2 ∧ j ≠ o + 3) :
    (writeI32 buf o v).getD j 0 = buf.getD j 0 := by
  obtain ⟨h0, h1, h2, h3⟩ := h
  unfold writeI32
  rw [getD_set_ne _ _ _ _ _ (Ne.symm h3), getD_set_ne _ _ _ _ _ (Ne.symm h2),
    getD_set_ne _ _ _ _ _ (Ne.symm h1), getD_set_ne _ _ _ _ _ (Ne.symm h0)]

/-- Reading back the four bytes just stored recovers the stored value. -/
lemma readI32_writeI32_same (buf : List Nat) (o : Nat) (v : Int)
    (h : o + 3 < buf.length) :
    readI32 (writeI32 buf o v) o = stored v := by
  have hlen : ∀ k, k ≤ 3 → o + k < buf.length := by omega
  have e0 : (writeI32 buf o v).getD o 0 = encByte (toU32 v) 0 := by
    unfold writeI32
    rw [getD_set_ne _ _ _ _ _ (by omega), getD_set_ne _ _ _ _ _ (by omega),
      getD_set_ne _ _ _ _ _ (by omega)]
    exact getD_set_eq _ _ _ _ (by omega)
  have e1 : (writeI32 buf o v).getD (o + 1) 0 = encByte (toU32 v) 1 := by
    unfold writeI32
    rw [getD_set_ne _ _ _ _ _ (by omega), getD_set_ne _ _ _ _ _ (by omega)]
    exact getD_set_eq _ _ _ _ (by simpa using hlen 1 (by omega))
  have e2 : (writeI32 buf o v).getD (o + 2) 0 = encByte (toU32 v) 2 := by
    unfold writeI32
    rw [getD_set_ne _ _ _ _ _ (by omega)]
    exact getD_set_eq _ _ _ _ (by simpa using hlen 2 (by omega))
  have e3 : (writeI32 buf o v).getD (o + 3) 0 = encByte (toU32 v) 3 := by
    unfold writeI32
    exact getD_set_eq _ _ _ _ (by simpa using hlen 3 (by omega))
  unfold readI32
  rw [e0, e1, e2, e3, decode_enc _ (toU32_lt v)]
  rfl

/-- A four-byte load from a region disjoint from the store is unchanged. -/
lemma readI32_writeI32_disjoint (buf : List Nat) (o p : Nat) (v : Int)
    (h : p + 4 ≤ o ∨ o + 4 ≤ p) :
    readI32 (writeI32 buf o v) p = readI32 buf p := by
  unfold readI32
  rw [getD_writeI32_ne _ _ _ _ (by omega), getD_writeI32_ne _ _ _ _ (by omega),
    getD_writeI32_ne _ _ _ _ (by omega), getD_writeI32_ne _ _ _ _ (by omega)]

/-! ### Operation equation lemmas -/

lemma enqueue_full (q : QueuingPort) (v : Int)
    (h : (q.write_index + 1) % MSG_COUNT = q.read_index) :
    q.enqueue v = (.error "Queue full", q) := by
  unfold QueuingPort.enqueue
  simp [h]

lemma enqueue_ok (q : QueuingPort) (v : Int)
    (h : (q.write_index + 1) % MSG_COUNT ≠ q.read_index) :
    q.enqueue v = (.ok (),
      { buffer := writeI32 q.buffer (q.write_index * MSG_SIZE) v
        write_index := (q.write_index + 1) % MSG_COUNT
        read_index := q.read_index }) := by
  unfold QueuingPort.enqueue
  simp [h]

lemma dequeue_empty (q : QueuingPort) (h : q.read_index = q.write_index) :
    q.dequeue = (.error "Queue empty", q) := by
  unfold QueuingPort.dequeue
  simp [h]

lemma dequeue_ok (q : QueuingPort) (h : q.read_index ≠ q.write_index) :
    q.dequeue = (.ok (readI32 q.buffer (q.read_index * MSG_SIZE)),
      { buffer := q.buffer
        write_index := q.write_index
        read_index := (q.read_index + 1) % MSG_COUNT }) := by
  unfold QueuingPort.dequeue
  simp [h]

lemma MSG_COUNT_eq : MSG_COUNT = 16 := rfl

lemma MSG_SIZE_eq : MSG_SIZE = 4 := rfl

/-- Enqueue phase from a state whose read cursor is still at 0: all enqueues
succeed, the write cursor advances without wrapping, earlier slots keep their
contents and slot i + j holds the stored image of value j. -/
lemma enqueueAll_fresh (vs : List Int) : ∀ (q : QueuingPort) (i : Nat),
    q.read_index = 0 → q.write_index = i → q.buffer.length = 64 →
    i + vs.length ≤ 15 →
    ∃ q', enqueueAll q vs = (.ok (), q') ∧ q'.read_index = 0 ∧
      q'.write_index = i + vs.length ∧ q'.buffer.length = 64 ∧
      (∀ j, j < i → readI32 q'.buffer (j * 4) = readI32 q.buffer (j * 4)) ∧
      (∀ j, j < vs.length → readI32 q'.buffer ((i + j) * 4) = stored (vs.getD j 0)) := by
  induction vs with
  | nil =>
    intro q i hr hw hlen hk
    exact ⟨q, rfl, hr, by simpa using hw, hlen, fun j _ => rfl, fun j hj => by simp at hj⟩
  | cons v rest ih =>
    intro q i hr hw hlen hk
    simp only [List.length_cons] at hk
    have hne : (q.write_index + 1) % MSG_COUNT ≠ q.read_index := by
      rw [hw, hr, MSG_COUNT_eq]; omega
    have he := enqueue_ok q v hne
    set q1 : QueuingPort :=
      { buffer := writeI32 q.buffer (q.write_index * MSG_SIZE) v
        write_index := (q.write_index + 1) % MSG_COUNT
        read_index := q.read_index } with hq1
    have hw1 : q1.write_index = i + 1 := by
      simp only [hq1, hw, MSG_COUNT_eq]; omega
    have hlen1 : q1.buffer.length = 64 := by
      simp only [hq1, length_writeI32]; exact hlen
    obtain ⟨q', he', hr', hw', hlen', hpres, hnew⟩ :=
      ih q1 (i + 1) hr hw1 hlen1 (by omega)
    refine ⟨q', ?_, hr', by simp only [hw']; simp; omega, hlen', ?_, ?_⟩
    · simp only [enqueueAll, he, he']
    · intro j hj
      rw [hpres j (by omega)]
      simp only [hq1, hw, MSG_SIZE_eq]
      exact readI32_writeI32_disjoint _ _ _ _ (by omega)
    · intro j hj
      cases j with
      | zero =>
        have := hpres i (by omega)
        rw [Nat.add_zero, this]
        simp only [hq1, hw, MSG_SIZE_eq, List.getD_cons_zero]
        exact readI32_writeI32_same _ _ _ (by omega)
      | succ k =>
        have hk' : k < rest.length := by simp at hj; omega
        have := hnew k hk'
        have harith : i + 1 + k = i + (k + 1) := by omega
        rw [harith] at this
        rw [this]
        simp

/-- Dequeue phase: if the slots from the read cursor up to the write cursor
hold the values of vs in order and no wrapping is pending, dequeueN returns
exactly vs and only advances the read cursor. -/
lemma dequeueN_spec (vs : List Int) : ∀ (q : QueuingPort) (r : Nat),
    q.read_index = r → q.write_index = r + vs.length → q.buffer.length = 64 →
    r + vs.length ≤ 15 →
    (∀ j, j < vs.length → readI32 q.buffer ((r + j) * 4) = vs.getD j 0) →
    ∃ q', dequeueN vs.length q = (.ok vs, q') ∧ q'.buffer = q.buffer ∧
      q'.write_index = q.write_index ∧ q'.read_index = r + vs.length := by
  induction vs with
  | nil =>
    intro q r hr hw hlen hk hvals
    exact ⟨q, rfl, rfl, rfl, by simpa using hr⟩
  | cons v rest ih =>
    intro q r hr hw hlen hk hvals
    simp only [List.length_cons] at hw hk
    have hne : q.read_index ≠ q.write_index := by rw [hr, hw]; omega
    have hd := dequeue_ok q hne
    have hval0 : readI32 q.buffer (q.read_index * MSG_SIZE) = v := by
      have := hvals 0 (by simp)
      simpa [hr, MSG_SIZE_eq] using this
    set q1 : QueuingPort :=
      { buffer := q.buffer
        write_index := q.write_index
        read_index := (q.read_index + 1) % MSG_COUNT } with hq1
    have hr1 : q1.read_index = r + 1 := by
      simp only [hq1, hr, MSG_COUNT_eq]; omega
    obtain ⟨q', hd', hb', hw', hr'⟩ := ih q1 (r + 1) hr1
      (by simp only [hq1, hw]; omega) (by simpa [hq1] using hlen) (by omega)
      (by
        intro j hj
        have := hvals (j + 1) (by simp; omega)
        have harith : r + 1 + j = r + (j + 1) := by omega
        simpa [hq1, harith] using this)
    refine ⟨q', ?_, by simpa [hq1] using hb', by simpa [hq1] using hw',
      by simp only [List.length_cons]; omega⟩
    simp only [List.length_cons, dequeueN, hd, hval0, hd']

lemma new_buffer_length : QueuingPort.new.buffer.length = 64 := by
  simp [QueuingPort.new, MSG_COUNT, MSG_SIZE]

/-- C1: FIFO ordering: enqueuing v1..vk (k < CAPACITY = 16) onto a fresh
QueuingPort with no interleaved dequeues, then dequeuing k times, succeeds and
yields exactly v1..vk in order, and one further dequeue fails with the
Queue empty error. -/
theorem fifo_ordering (vs : List Int) (hk : vs.length < 16)
    (hv : ∀ v ∈ vs, isI32 v) :
    ∃ q q', enqueueAll QueuingPort.new vs = (.ok (), q) ∧
      dequeueN vs.length q = (.ok vs, q') ∧
      (q'.dequeue).1 = .error "Queue empty" := by
  obtain ⟨q, he, hr, hw, hlen, _, hnew⟩ :=
    enqueueAll_fresh vs QueuingPort.new 0 rfl rfl new_buffer_length (by omega)
  have hvals : ∀ j, j < vs.length → readI32 q.buffer ((0 + j) * 4) = vs.getD j 0 := by
    intro j hj
    rw [hnew j hj, stored_eq_self]
    apply hv
    rw [List.getD_eq_getElem _ _ hj]
    exact List.getElem_mem hj
  obtain ⟨q', hd, _, hw', hr'⟩ :=
    dequeueN_spec vs q 0 hr (by rw [hw]) hlen (by omega) hvals
  refine ⟨q, q', he, hd, ?_⟩
  rw [dequeue_empty q' (by omega)]

/-- Witness for C1 at the concrete scenario of the spec: values 100, 200, 300
on a fresh capacity 16 buffer. -/
theorem fifo_ordering_witness :
    (([100, 200, 300] : List Int).length < 16 ∧
      ∀ v ∈ ([100, 200, 300] : List Int), isI32 v) ∧
    (∃ q q', enqueueAll QueuingPort.new [100, 200, 300] = (.ok (), q) ∧
      dequeueN ([100, 200, 300] : List Int).length q = (.ok [100, 200, 300], q') ∧
      (q'.dequeue).1 = .error "Queue empty") :=
  ⟨⟨by decide, by decide⟩, fifo_ordering [100, 200, 300] (by decide) (by decide)⟩

/-- C2: capacity invariant: on a fresh QueuingPort the first 15 enqueues all
succeed, the 16th fails with the Queue full error leaving the state unchanged,
and after one dequeue exactly one more enqueue succeeds before the next one
fails with Queue full again. -/
theorem capacity_invariant (vs : List Int) (h15 : vs.length = 15) (x y z : Int) :
    ∃ q, enqueueAll QueuingPort.new vs = (.ok (), q) ∧
      (q.enqueue x).1 = .error "Queue full" ∧ (q.enqueue x).2 = q ∧
      ∃ v1 q1, q.dequeue = (.ok v1, q1) ∧
        ∃ q2, q1.enqueue y = (.ok (), q2) ∧
          (q2.enqueue z).1 = .error "Queue full" := by
  obtain ⟨q, he, hr, hw, hlen, _, _⟩ :=
    enqueueAll_fresh vs QueuingPort.new 0 rfl rfl new_buffer_length (by omega)
  rw [h15] at hw
  have hwq : q.write_index = 15 := by omega
  have hfull : (q.write_index + 1) % MSG_COUNT = q.read_index := by
    rw [hwq, hr, MSG_COUNT_eq]
  have he1 := enqueue_full q x hfull
  have hne : q.read_index ≠ q.write_index := by rw [hr, hwq]; omega
  have hd := dequeue_ok q hne
  set q1 : QueuingPort :=
    { buffer := q.buffer
      write_index := q.write_index
      read_index := (q.read_index + 1) % MSG_COUNT } with hq1
  have hne2 : (q1.write_index + 1) % MSG_COUNT ≠ q1.read_index := by
    simp only [hq1, hwq, hr, MSG_COUNT_eq]; omega
  have he2 := enqueue_ok q1 y hne2
  set q2 : QueuingPort :=
    { buffer := writeI32 q1.buffer (q1.write_index * MSG_SIZE) y
      write_index := (q1.write_index + 1) % MSG_COUNT
      read_index := q1.read_index } with hq2
  have hfull2 : (q2.write_index + 1) % MSG_COUNT = q2.read_index := by
    simp only [hq2, hq1, hwq, hr, MSG_COUNT_eq]
  have he3 := enqueue_full q2 z hfull2
  exact ⟨q, he, by rw [he1], by rw [he1], readI32 q.buffer (q.read_index * MSG_SIZE),
    q1, hd, q2, he2, by rw [he3]⟩

/-- Witness for C2 with fifteen zero values and zero probes. -/
theorem capacity_invariant_witness :
    (List.replicate 15 (0 : Int)).length = 15 ∧
    (∃ q, enqueueAll QueuingPort.new (List.replicate 15 (0 : Int)) = (.ok (), q) ∧
      (q.enqueue 7).1 = .error "Queue full" ∧ (q.enqueue 7).2 = q ∧
      ∃ v1 q1, q.dequeue = (.ok v1, q1) ∧
        ∃ q2, q1.enqueue 8 = (.ok (), q2) ∧
          (q2.enqueue 9).1 = .error "Queue full") :=
  ⟨by decide, capacity_invariant (List.replicate 15 (0 : Int)) (by decide) 7 8 9⟩

/-- C3: enqueue contract and failure atomicity: enqueue fails with the
Queue full error exactly when advancing the write cursor would hit the read
cursor; on failure the whole state is unchanged; on success the item is
stored at the current write slot and the write cursor advances modulo 16. -/
theorem enqueue_contract (q : QueuingPort) (item : Int) :
    ((q.enqueue item).1 = .error "Queue full" ↔
      (q.write_index + 1) % MSG_COUNT = q.read_index) ∧
    ((q.enqueue item).1 = .error "Queue full" → (q.enqueue item).2 = q) ∧
    ((q.write_index + 1) % MSG_COUNT ≠ q.read_index →
      (q.enqueue item).1 = .ok () ∧
      (q.enqueue item).2.buffer = writeI32 q.buffer (q.write_index * MSG_SIZE) item ∧
      (q.enqueue item).2.write_index = (q.write_index + 1) % MSG_COUNT ∧
      (q.enqueue item).2.read_index = q.read_index) := by
  by_cases h : (q.write_index + 1) % MSG_COUNT = q.read_index
  · rw [enqueue_full q item h]
    exact ⟨by simp [h], fun _ => rfl, fun hc => absurd h hc⟩
  · rw [enqueue_ok q item h]
    exact ⟨by simp [h], by simp, fun _ => ⟨rfl, rfl, rfl, rfl⟩⟩

/-- Witness for C3 on a concrete full state and a concrete item. -/
theorem enqueue_contract_witness :
    (((QueuingPort.mk (List.replicate 64 0) 15 0).enqueue 5).1 =
        .error "Queue full" ↔
      ((QueuingPort.mk (List.replicate 64 0) 15 0).write_index + 1) % MSG_COUNT =
        (QueuingPort.mk (List.replicate 64 0) 15 0).read_index) ∧
    (((QueuingPort.mk (List.replicate 64 0) 15 0).enqueue 5).1 =
        .error "Queue full" →
      ((QueuingPort.mk (List.replicate 64 0) 15 0).enqueue 5).2 =
        QueuingPort.mk (List.replicate 64 0) 15 0) ∧
    (((QueuingPort.mk (List.replicate 64 0) 15 0).write_index + 1) % MSG_COUNT ≠
        (QueuingPort.mk (List.replicate 64 0) 15 0).read_index →
      ((QueuingPort.mk (List.replicate 64 0) 15 0).enqueue 5).1 = .ok () ∧
      ((QueuingPort.mk (List.replicate 64 0) 15 0).enqueue 5).2.buffer =
        writeI32 (QueuingPort.mk (List.replicate 64 0) 15 0).buffer
          ((QueuingPort.mk (List.replicate 64 0) 15 0).write_index * MSG_SIZE) 5 ∧
      ((QueuingPort.mk (List.replicate 64 0) 15 0).enqueue 5).2.write_index =
        ((QueuingPort.mk (List.replicate 64 0) 15 0).write_index + 1) % MSG_COUNT ∧
      ((QueuingPort.mk (List.replicate 64 0) 15 0).enqueue 5).2.read_index =
        (QueuingPort.mk (List.replicate 64 0) 15 0).read_index) :=
  enqueue_contract (QueuingPort.mk (List.replicate 64 0) 15 0) 5

/-- C4: dequeue contract: dequeue fails with the Queue empty error exactly
when the read cursor equals the write cursor, leaving the state unchanged; in
particular dequeue on a fresh buffer fails with Queue empty.  Otherwise it
returns the value at the current read slot and advances the read cursor
modulo 16. -/
theorem dequeue_contract (q : QueuingPort) :
    ((q.dequeue).1 = .error "Queue empty" ↔ q.read_index = q.write_index) ∧
    ((q.dequeue).1 = .error "Queue empty" → (q.dequeue).2 = q) ∧
    (q.read_index ≠ q.write_index →
      (q.dequeue).1 = .ok (readI32 q.buffer (q.read_index * MSG_SIZE)) ∧
      (q.dequeue).2.buffer = q.buffer ∧
      (q.dequeue).2.write_index = q.write_index ∧
      (q.dequeue).2.read_index = (q.read_index + 1) % MSG_COUNT) ∧
    (QueuingPort.new.dequeue).1 = .error "Queue empty" := by
  have hfresh : (QueuingPort.new.dequeue).1 = .error "Queue empty" := by
    rw [dequeue_empty QueuingPort.new rfl]
  by_cases h : q.read_index = q.write_index
  · rw [dequeue_empty q h]
    exact ⟨by simp [h], fun _ => rfl, fun hc => absurd h hc, hfresh⟩
  · rw [dequeue_ok q h]
    exact ⟨by simp [h], by simp, fun _ => ⟨rfl, rfl, rfl, rfl⟩, hfresh⟩

/-- Witness for C4 on a concrete state with one pending message. -/
theorem dequeue_contract_witness :
    (((QueuingPort.mk (List.replicate 64 0) 1 0).dequeue).1 =
        .error "Queue empty" ↔
      (QueuingPort.mk (List.replicate 64 0) 1 0).read_index =
        (QueuingPort.mk (List.replicate 64 0) 1 0).write_index) ∧
    (((QueuingPort.mk (List.replicate 64 0) 1 0).dequeue).1 =
        .error "Queue empty" →
      ((QueuingPort.mk (List.replicate 64 0) 1 0).dequeue).2 =
        QueuingPort.mk (List.replicate 64 0) 1 0) ∧
    ((QueuingPort.mk (List.replicate 64 0) 1 0).read_index ≠
        (QueuingPort.mk (List.replicate 64 0) 1 0).write_index →
      ((QueuingPort.mk (List.replicate 64 0) 1 0).dequeue).1 =
        .ok (readI32 (QueuingPort.mk (List.replicate 64 0) 1 0).buffer
          ((QueuingPort.mk (List.replicate 64 0) 1 0).read_index * MSG_SIZE)) ∧
      ((QueuingPort.mk (List.replicate 64 0) 1 0).dequeue).2.buffer =
        (QueuingPort.mk (List.replicate 64 0) 1 0).buffer ∧
      ((QueuingPort.mk (List.replicate 64 0) 1 0).dequeue).2.write_index =
        (QueuingPort.mk (List.replicate 64 0) 1 0).write_index ∧
      ((QueuingPort.mk (List.replicate 64 0) 1 0).dequeue).2.read_index =
        ((QueuingPort.mk (List.replicate 64 0) 1 0).read_index + 1) % MSG_COUNT) ∧
    (QueuingPort.new.dequeue).1 = .error "Queue empty" :=
  dequeue_contract (QueuingPort.mk (List.replicate 64 0) 1 0)

/-- Alternating enqueue and dequeue from any empty well-formed state: every
pair succeeds, each dequeue returns the value just enqueued, and after the
run both cursors sit at the starting cursor plus the number of pairs, reduced
modulo 16. -/
lemma pairs_spec (vs : List Int) : ∀ (q : QueuingPort) (c : Nat),
    q.read_index = c → q.write_index = c → c < 16 → q.buffer.length = 64 →
    (∀ v ∈ vs, isI32 v) →
    ∃ q', pairs q vs = (.ok vs, q') ∧ q'.read_index = (c + vs.length) % 16 ∧
      q'.write_index = (c + vs.length) % 16 ∧ q'.buffer.length = 64 := by
  induction vs with
  | nil =>
    intro q c hr hw hc hlen _
    exact ⟨q, rfl, by simp [hr, Nat.mod_eq_of_lt hc],
      by simp [hw, Nat.mod_eq_of_lt hc], hlen⟩
  | cons v rest ih =>
    intro q c hr hw hc hlen hv
    have hne : (q.write_index + 1) % MSG_COUNT ≠ q.read_index := by
      rw [hw, hr, MSG_COUNT_eq]; omega
    have he := enqueue_ok q v hne
    set q1 : QueuingPort :=
      { buffer := writeI32 q.buffer (q.write_index * MSG_SIZE) v
        write_index := (q.write_index + 1) % MSG_COUNT
        read_index := q.read_index } with hq1
    have hne2 : q1.read_index ≠ q1.write_index := by
      simp only [hq1, hw, hr, MSG_COUNT_eq]; omega
    have hd := dequeue_ok q1 hne2
    have hval : readI32 q1.buffer (q1.read_index * MSG_SIZE) = v := by
      have hb : q.write_index * MSG_SIZE + 3 < q.buffer.length := by
        rw [hw, hlen, MSG_SIZE_eq]; omega
      simp only [hq1, hr, hw, MSG_SIZE_eq]
      rw [readI32_writeI32_same _ _ _ (by omega)]
      exact stored_eq_self v (hv v (by simp))
    set q2 : QueuingPort :=
      { buffer := q1.buffer
        write_index := q1.write_index
        read_index := (q1.read_index + 1) % MSG_COUNT } with hq2
    obtain ⟨q', hp, hr', hw', hlen'⟩ := ih q2 ((c + 1) % 16)
      (by simp only [hq2, hq1, hr, MSG_COUNT_eq])
      (by simp only [hq2, hq1, hw, MSG_COUNT_eq])
      (by omega)
      (by simp only [hq2, hq1, length_writeI32]; exact hlen)
      (fun w hw' => hv w (by simp [hw']))
    refine ⟨q', ?_, by rw [hr']; simp only [List.length_cons]; omega,
      by rw [hw']; simp only [List.length_cons]; omega, hlen'⟩
    simp only [pairs, he, hd, hval, hp]

/-- C5: wraparound correctness: for any run of 32 or more enqueue-dequeue
pairs from a fresh QueuingPort (cycling both cursors past the array boundary
at least twice), every prefix of the run returns exactly the enqueued values
in order, and after it the two cursors agree and equal the number of pairs
reduced modulo 16, staying in range with no drift. -/
theorem wraparound (vs p s : List Int) (h32 : 32 ≤ vs.length)
    (hv : ∀ v ∈ vs, isI32 v) (hps : vs = p ++ s) :
    ∃ q', pairs QueuingPort.new p = (.ok p, q') ∧
      q'.read_index = p.length % 16 ∧ q'.write_index = p.length % 16 ∧
      q'.read_index = q'.write_index ∧ q'.read_index < 16 := by
  have hvp : ∀ v ∈ p, isI32 v := fun v hv' =>
    hv v (by rw [hps]; exact List.mem_append_left _ hv')
  obtain ⟨q', hp, hr, hw, _⟩ :=
    pairs_spec p QueuingPort.new 0 rfl rfl (by omega) new_buffer_length hvp
  refine ⟨q', hp, by simpa using hr, by simpa using hw, by omega, by omega⟩

/-- Witness for C5: the run 0..31, taken in full as its own prefix. -/
theorem wraparound_witness :
    (32 ≤ ((List.range 32).map (fun n => (n : Int))).length ∧
      (∀ v ∈ (List.range 32).map (fun n => (n : Int)), isI32 v) ∧
      (List.range 32).map (fun n => (n : Int)) =
        (List.range 32).map (fun n => (n : Int)) ++ []) ∧
    (∃ q', pairs QueuingPort.new ((List.range 32).map (fun n => (n : Int))) =
        (.ok ((List.range 32).map (fun n => (n : Int))), q') ∧
      q'.read_index = ((List.range 32).map (fun n => (n : Int))).length % 16 ∧
      q'.write_index = ((List.range 32).map (fun n => (n : Int))).length % 16 ∧
      q'.read_index = q'.write_index ∧ q'.read_index < 16) :=
  ⟨⟨by decide, by decide, by simp⟩,
    wraparound ((List.range 32).map (fun n => (n : Int)))
      ((List.range 32).map (fun n => (n : Int))) [] (by decide) (by decide) (by simp)⟩

lemma enqueue_error_iff (q : QueuingPort) (v : Int) :
    (q.enqueue v).1 = .error "Queue full" ↔
      (q.write_index + 1) % MSG_COUNT = q.read_index := by
  by_cases h : (q.write_index + 1) % MSG_COUNT = q.read_index
  · rw [enqueue_full q v h]; simp [h]
  · rw [enqueue_ok q v h]; simp [h]

lemma dequeue_error_iff (q : QueuingPort) :
    (q.dequeue).1 = .error "Queue empty" ↔ q.read_index = q.write_index := by
  by_cases h : q.read_index = q.write_index
  · rw [dequeue_empty q h]; simp [h]
  · rw [dequeue_ok q h]; simp [h]

lemma inv_step (q : QueuingPort) (op : Op) (h : Inv q) : Inv (step q op) := by
  obtain ⟨hw, hr, hlen⟩ := h
  cases op with
  | enq v =>
    by_cases hf : (q.write_index + 1) % MSG_COUNT = q.read_index
    · simp only [step, enqueue_full q v hf]
      exact ⟨hw, hr, hlen⟩
    · simp only [step, enqueue_ok q v hf]
      refine ⟨?_, hr, ?_⟩
      · show (q.write_index + 1) % MSG_COUNT < MSG_COUNT
        rw [MSG_COUNT_eq]; omega
      · show (writeI32 q.buffer (q.write_index * MSG_SIZE) v).length = MSG_COUNT * MSG_SIZE
        rw [length_writeI32]; exact hlen
  | deq =>
    by_cases hf : q.read_index = q.write_index
    · simp only [step, dequeue_empty q hf]
      exact ⟨hw, hr, hlen⟩
    · simp only [step, dequeue_ok q hf]
      refine ⟨hw, ?_, hlen⟩
      show (q.read_index + 1) % MSG_COUNT < MSG_COUNT
      rw [MSG_COUNT_eq]; omega

lemma inv_run (ops : List Op) : ∀ q, Inv q → Inv (run q ops) := by
  induction ops with
  | nil => intro q h; exact h
  | cons op rest ih =>
    intro q h
    rw [run, List.foldl_cons]
    exact ih (step q op) (inv_step q op h)

lemma inv_new : Inv QueuingPort.new := by decide

/-- C8: cursor and occupancy invariant: in every state reachable from a fresh
QueuingPort by enqueue and dequeue calls, both cursors lie in [0, 16), the
occupancy (write minus read, modulo 16) is at most 15, dequeue fails with
Queue empty exactly when the cursors coincide, and enqueue fails with
Queue full exactly when advancing the write cursor would hit the read
cursor. -/
theorem reachable_invariant (ops : List Op) :
    Inv (run QueuingPort.new ops) ∧
    (run QueuingPort.new ops).write_index < MSG_COUNT ∧
    (run QueuingPort.new ops).read_index < MSG_COUNT ∧
    (((run QueuingPort.new ops).write_index : Int) -
        ((run QueuingPort.new ops).read_index : Int)) % (MSG_COUNT : Int) ≤
      (MSG_COUNT : Int) - 1 ∧
    (((run QueuingPort.new ops).dequeue).1 = .error "Queue empty" ↔
      (run QueuingPort.new ops).write_index = (run QueuingPort.new ops).read_index) ∧
    (∀ v, ((run QueuingPort.new ops).enqueue v).1 = .error "Queue full" ↔
      ((run QueuingPort.new ops).write_index + 1) % MSG_COUNT =
        (run QueuingPort.new ops).read_index) := by
  have hinv := inv_run ops QueuingPort.new inv_new
  refine ⟨hinv, hinv.1, hinv.2.1, ?_, ?_, fun v => enqueue_error_iff _ v⟩
  · rw [MSG_COUNT_eq]
    push_cast
    omega
  · rw [dequeue_error_iff]
    exact eq_comm

/-- Witness for C8 on a short concrete run. -/
theorem reachable_invariant_witness :
    Inv (run QueuingPort.new [.enq 5, .enq 6, .deq]) ∧
    (run QueuingPort.new [.enq 5, .enq 6, .deq]).write_index < MSG_COUNT ∧
    (run QueuingPort.new [.enq 5, .enq 6, .deq]).read_index < MSG_COUNT ∧
    (((run QueuingPort.new [.enq 5, .enq 6, .deq]).write_index : Int) -
        ((run QueuingPort.new [.enq 5, .enq 6, .deq]).read_index : Int)) %
        (MSG_COUNT : Int) ≤ (MSG_COUNT : Int) - 1 ∧
    (((run QueuingPort.new [.enq 5, .enq 6, .deq]).dequeue).1 =
        .error "Queue empty" ↔
      (run QueuingPort.new [.enq 5, .enq 6, .deq]).write_index =
        (run QueuingPort.new [.enq 5, .enq 6, .deq]).read_index) ∧
    (∀ v, ((run QueuingPort.new [.enq 5, .enq 6, .deq]).enqueue v).1 =
        .error "Queue full" ↔
      ((run QueuingPort.new [.enq 5, .enq 6, .deq]).write_index + 1) % MSG_COUNT =
        (run QueuingPort.new [.enq 5, .enq 6, .deq]).read_index) :=
  reachable_invariant [.enq 5, .enq 6, .deq]

/-- C9: in-bounds slot access: under the cursor range invariant, the four
byte positions written by enqueue at offset write_index * MSG_SIZE and the
four byte positions read by dequeue at offset read_index * MSG_SIZE all fall
strictly inside the 64-byte buffer, so neither operation indexes out of
bounds. -/
theorem inbounds_access (q : QueuingPort) (h : Inv q) :
    (∀ i ∈ enqWriteOffsets q, i < q.buffer.length) ∧
    (∀ i ∈ deqReadOffsets q, i < q.buffer.length) := by
  obtain ⟨hw, hr, hlen⟩ := h
  rw [MSG_COUNT_eq] at hw hr
  rw [hlen, MSG_COUNT_eq, MSG_SIZE_eq]
  constructor <;> intro i hi <;>
    simp only [enqWriteOffsets, deqReadOffsets, MSG_SIZE_eq, List.mem_cons,
      List.not_mem_nil, or_false] at hi <;>
    rcases hi with h1 | h1 | h1 | h1 <;> omega

/-- Witness for C9 at the fresh state. -/
theorem inbounds_access_witness :
    Inv QueuingPort.new ∧
    ((∀ i ∈ enqWriteOffsets QueuingPort.new, i < QueuingPort.new.buffer.length) ∧
     (∀ i ∈ deqReadOffsets QueuingPort.new, i < QueuingPort.new.buffer.length)) :=
  ⟨by decide, inbounds_access QueuingPort.new (by decide)⟩

/-- C10: frame property: a successful dequeue changes only the read cursor,
leaving the write cursor and every buffer byte (including the bytes of the
value just dequeued) unchanged; a successful enqueue changes only the write
cursor and the four bytes of the slot at the current write cursor, leaving
the read cursor and every other byte unchanged. -/
theorem frame_property (q : QueuingPort) (v : Int) :
    (q.read_index ≠ q.write_index →
      (q.dequeue).2.buffer = q.buffer ∧
      (q.dequeue).2.write_index = q.write_index ∧
      (q.dequeue).2.read_index = (q.read_index + 1) % MSG_COUNT) ∧
    ((q.write_index + 1) % MSG_COUNT ≠ q.read_index →
      (q.enqueue v).2.read_index = q.read_index ∧
      (q.enqueue v).2.write_index = (q.write_index + 1) % MSG_COUNT ∧
      (q.enqueue v).2.buffer.length = q.buffer.length ∧
      ∀ i, i ∉ enqWriteOffsets q →
        (q.enqueue v).2.buffer.getD i 0 = q.buffer.getD i 0) := by
  constructor
  · intro h
    rw [dequeue_ok q h]
    exact ⟨rfl, rfl, rfl⟩
  · intro h
    rw [enqueue_ok q v h]
    refine ⟨rfl, rfl, ?_, ?_⟩
    · show (writeI32 q.buffer (q.write_index * MSG_SIZE) v).length = q.buffer.length
      exact length_writeI32 _ _ _
    · intro i hi
      show (writeI32 q.buffer (q.write_index * MSG_SIZE) v).getD i 0 = q.buffer.getD i 0
      apply getD_writeI32_ne
      simp only [enqWriteOffsets, List.mem_cons, List.not_mem_nil, or_false,
        not_or] at hi
      exact hi

/-- Witness for C10 at a concrete state with one pending message. -/
theorem frame_property_witness :
    ((QueuingPort.mk (List.replicate 64 0) 1 0).read_index ≠
        (QueuingPort.mk (List.replicate 64 0) 1 0).write_index ∧
      ((QueuingPort.mk (List.replicate 64 0) 1 0).write_index + 1) % MSG_COUNT ≠
        (QueuingPort.mk (List.replicate 64 0) 1 0).read_index) ∧
    (((QueuingPort.mk (List.replicate 64 0) 1 0).read_index ≠
        (QueuingPort.mk (List.replicate 64 0) 1 0).write_index →
      ((QueuingPort.mk (List.replicate 64 0) 1 0).dequeue).2.buffer =
        (QueuingPort.mk (List.replicate 64 0) 1 0).buffer ∧
      ((QueuingPort.mk (List.replicate 64 0) 1 0).dequeue).2.write_index =
        (QueuingPort.mk (List.replicate 64 0) 1 0).write_index ∧
      ((QueuingPort.mk (List.replicate 64 0) 1 0).dequeue).2.read_index =
        ((QueuingPort.mk (List.replicate 64 0) 1 0).read_index + 1) % MSG_COUNT) ∧
    (((QueuingPort.mk (List.replicate 64 0) 1 0).write_index + 1) % MSG_COUNT ≠
        (QueuingPort.mk (List.replicate 64 0) 1 0).read_index →
      (((QueuingPort.mk (List.replicate 64 0) 1 0)).enqueue 42).2.read_index =
        (QueuingPort.mk (List.replicate 64 0) 1 0).read_index ∧
      (((QueuingPort.mk (List.replicate 64 0) 1 0)).enqueue 42).2.write_index =
        ((QueuingPort.mk (List.replicate 64 0) 1 0).write_index + 1) % MSG_COUNT ∧
      (((QueuingPort.mk (List.replicate 64 0) 1 0)).enqueue 42).2.buffer.length =
        (QueuingPort.mk (List.replicate 64 0) 1 0).buffer.length ∧
      ∀ i, i ∉ enqWriteOffsets (QueuingPort.mk (List.replicate 64 0) 1 0) →
        (((QueuingPort.mk (List.replicate 64 0) 1 0)).enqueue 42).2.buffer.getD i 0 =
          (QueuingPort.mk (List.replicate 64 0) 1 0).buffer.getD i 0)) :=
  ⟨⟨by decide, by decide⟩, frame_property (QueuingPort.mk (List.replicate 64 0) 1 0) 42⟩

/-!
### Shared-memory accessor

The Rust file keeps one process-wide static pointer SHARED_QUEUE_PTR and one
static SHMEM_HANDLE.  get_shared_queue returns the existing binding whenever
the pointer is non-null, regardless of the os_id argument; only when the
pointer is null does it create a region named os_id, write a fresh
QueuingPort into it and record the binding.  Creation failure hits an expect
call, which aborts the process.  We model the two statics as an explicit
registry state, the shared-memory provider as a boolean saying whether
creation would succeed, and the expect abort as a dedicated panic result.
-/

/-- Result of an operation that may abort the process. -/
inductive PanicOr (α : Type) where
  | ok (a : α)
  | panic (msg : String)
deriving DecidableEq, Repr

/-- The process-wide statics: the queue behind SHARED_QUEUE_PTR (none models
the null pointer) together with the names of all regions created so far. -/
structure GState where
  shared_queue : Option QueuingPort
  created : List String
deriving DecidableEq, Repr

/-- Process start: null pointer, no region created. -/
def GState.fresh : GState := ⟨none, []⟩

/-- get_shared_queue: return the existing binding if the pointer is non-null;
otherwise create a region under os_id (recording its name), place a fresh
QueuingPort in it and bind it, aborting if creation fails. -/
def get_shared_queue (alloc_ok : Bool) (os_id : String) (g : GState) :
    PanicOr (QueuingPort × GState) :=
  match g.shared_queue with
  | some q => .ok (q, g)
  | none =>
    if alloc_ok then
      .ok (QueuingPort.new, ⟨some QueuingPort.new, g.created ++ [os_id]⟩)
    else
      .panic "Failed to create shared memory"

/-- QueuingPort::enqueue_shared: get_shared_queue(os_id).enqueue(item). -/
def enqueue_shared (alloc_ok : Bool) (item : Int) (os_id : String)
    (g : GState) : PanicOr (Except String Unit × GState) :=
  match get_shared_queue alloc_ok os_id g with
  | .panic m => .panic m
  | .ok (q, g1) => .ok ((q.enqueue item).1, ⟨some (q.enqueue item).2, g1.created⟩)

/-- QueuingPort::dequeue_shared: get_shared_queue(os_id).dequeue(). -/
def dequeue_shared (alloc_ok : Bool) (os_id : String) (g : GState) :
    PanicOr (Except String Int × GState) :=
  match get_shared_queue alloc_ok os_id g with
  | .panic m => .panic m
  | .ok (q, g1) => .ok ((q.dequeue).1, ⟨some (q.dequeue).2, g1.created⟩)

/-- A shared-API call with its name argument. -/
inductive SOp where
  | senq (v : Int) (name : String)
  | sdeq (name : String)
deriving DecidableEq, Repr

/-- One shared-API call as a registry-state transformer. -/
def sstep (alloc_ok : Bool) (g : GState) : SOp → PanicOr GState
  | .senq v n =>
    match enqueue_shared alloc_ok v n g with
    | .ok (_, g1) => .ok g1
    | .panic m => .panic m
  | .sdeq n =>
    match dequeue_shared alloc_ok n g with
    | .ok (_, g1) => .ok g1
    | .panic m => .panic m

/-- Run a sequence of shared-API calls, stopping at a process abort. -/
def runShared (alloc_ok : Bool) (g : GState) : List SOp → PanicOr GState
  | [] => .ok g
  | op :: rest =>
    match sstep alloc_ok g op with
    | .ok g1 => runShared alloc_ok g1 rest
    | .panic m => .panic m

/-- Registry invariant: at most one region has ever been created, and none
before the binding exists. -/
def GInv (g : GState) : Prop :=
  g.created.length ≤ 1 ∧ (g.shared_queue = none → g.created = [])

lemma created_get (a : Bool) (n : String) (g : GState) (h : GInv g)
    (q : QueuingPort) (g1 : GState)
    (he : get_shared_queue a n g = .ok (q, g1)) : g1.created.length ≤ 1 := by
  unfold get_shared_queue at he
  cases hsq : g.shared_queue with
  | some q0 =>
    rw [hsq] at he
    cases he
    exact h.1
  | none =>
    rw [hsq] at he
    cases a with
    | true =>
      simp only [if_true] at he
      cases he
      simp [h.2 hsq]
    | false => simp at he

lemma ginv_sstep (a : Bool) (g : GState) (op : SOp) (h : GInv g) :
    ∀ g1, sstep a g op = .ok g1 → GInv g1 := by
  intro g1 hs
  cases op with
  | senq v n =>
    simp only [sstep, enqueue_shared] at hs
    cases hg : get_shared_queue a n g with
    | ok p =>
      obtain ⟨q, g2⟩ := p
      rw [hg] at hs
      cases hs
      exact ⟨created_get a n g h q g2 hg, by intro hc; cases hc⟩
    | panic m => rw [hg] at hs; cases hs
  | sdeq n =>
    simp only [sstep, dequeue_shared] at hs
    cases hg : get_shared_queue a n g with
    | ok p =>
      obtain ⟨q, g2⟩ := p
      rw [hg] at hs
      cases hs
      exact ⟨created_get a n g h q g2 hg, by intro hc; cases hc⟩
    | panic m => rw [hg] at hs; cases hs

lemma ginv_runShared (a : Bool) (ops : List SOp) : ∀ g, GInv g →
    ∀ g1, runShared a g ops = .ok g1 → GInv g1 := by
  induction ops with
  | nil =>
    intro g h g1 hr
    cases hr
    exact h
  | cons op rest ih =>
    intro g h g1 hr
    unfold runShared at hr
    cases hs : sstep a g op with
    | ok g2 =>
      rw [hs] at hr
      exact ih g2 (ginv_sstep a g op h g2 hs) g1 hr
    | panic m => rw [hs] at hr; cases hr

/-- C6 counterexample: after a first call under name A, the first call under
name B does not allocate a region for B and does not construct a fresh
buffer: it returns the binding created under A and leaves the registry state
untouched, so the per-name reading of the claim fails. -/
theorem shared_binding_counterexample :
    get_shared_queue true "A" GState.fresh =
      .ok (QueuingPort.new, ⟨some QueuingPort.new, ["A"]⟩) ∧
    get_shared_queue true "B" ⟨some QueuingPort.new, ["A"]⟩ =
      .ok (QueuingPort.new, ⟨some QueuingPort.new, ["A"]⟩) ∧
    "B" ∉ (GState.mk (some QueuingPort.new) ["A"]).created := by
  refine ⟨rfl, rfl, by simp⟩

/-- C6 amended: the binding is process-global, not per-name: the first
shared-accessor call of the process, under whichever name, allocates the one
region and constructs a fresh empty QueuingPort in it; every later call,
under any name, returns that binding without re-initialising; at most one
region is ever created per process lifetime; and from a fresh process an
enqueue_shared followed by a dequeue_shared under the same name returns the
enqueued value, never the Queue empty error. -/
theorem shared_binding_global (a : Bool) (name : String) (g : GState)
    (v : Int) (hv : isI32 v) :
    (g.shared_queue = none →
      get_shared_queue true name g =
        .ok (QueuingPort.new, ⟨some QueuingPort.new, g.created ++ [name]⟩)) ∧
    (∀ q, g.shared_queue = some q → get_shared_queue a name g = .ok (q, g)) ∧
    (∀ ops g1, runShared a GState.fresh ops = .ok g1 →
      g1.created.length ≤ 1) ∧
    (∃ g1 g2, enqueue_shared true v name GState.fresh = .ok (.ok (), g1) ∧
      dequeue_shared true name g1 = .ok (.ok v, g2)) := by
  refine ⟨?_, ?_, ?_, ?_⟩
  · intro h
    unfold get_shared_queue
    rw [h]
    rfl
  · intro q h
    unfold get_shared_queue
    rw [h]
  · intro ops g1 hr
    exact (ginv_runShared a ops GState.fresh ⟨by simp [GState.fresh], fun _ => rfl⟩
      g1 hr).1
  · have hne : (QueuingPort.new.write_index + 1) % MSG_COUNT ≠
        QueuingPort.new.read_index := by decide
    have he := enqueue_ok QueuingPort.new v hne
    set q1 : QueuingPort :=
      { buffer := writeI32 QueuingPort.new.buffer
          (QueuingPort.new.write_index * MSG_SIZE) v
        write_index := (QueuingPort.new.write_index + 1) % MSG_COUNT
        read_index := QueuingPort.new.read_index } with hq1
    have hne2 : q1.read_index ≠ q1.write_index := by
      show QueuingPort.new.read_index ≠ (QueuingPort.new.write_index + 1) % MSG_COUNT
      decide
    have hd := dequeue_ok q1 hne2
    have hval : readI32 q1.buffer (q1.read_index * MSG_SIZE) = v := by
      have h1 : q1.read_index * MSG_SIZE = QueuingPort.new.write_index * MSG_SIZE := rfl
      rw [h1]
      simp only [hq1]
      rw [readI32_writeI32_same _ _ _ (by rw [new_buffer_length]; decide)]
      exact stored_eq_self v hv
    have hg : get_shared_queue true name GState.fresh =
        .ok (QueuingPort.new, ⟨some QueuingPort.new, [name]⟩) := rfl
    refine ⟨⟨some q1, [name]⟩, ⟨some (q1.dequeue).2, [name]⟩, ?_, ?_⟩
    · unfold enqueue_shared
      rw [hg]
      show PanicOr.ok ((QueuingPort.new.enqueue v).1,
          GState.mk (some (QueuingPort.new.enqueue v).2) [name]) =
        PanicOr.ok (Except.ok (), GState.mk (some q1) [name])
      rw [he]
    · have hg2 : get_shared_queue true name ⟨some q1, [name]⟩ =
          .ok (q1, ⟨some q1, [name]⟩) := rfl
      unfold dequeue_shared
      rw [hg2]
      show PanicOr.ok ((q1.dequeue).1, GState.mk (some (q1.dequeue).2) [name]) =
        PanicOr.ok (Except.ok v, GState.mk (some (q1.dequeue).2) [name])
      rw [hd, hval]

/-- Witness for C6 amended, from a fresh process with value 11. -/
theorem shared_binding_global_witness :
    isI32 11 ∧
    ((GState.fresh.shared_queue = none →
      get_shared_queue true "q" GState.fresh =
        .ok (QueuingPort.new, ⟨some QueuingPort.new, GState.fresh.created ++ ["q"]⟩)) ∧
    (∀ q, GState.fresh.shared_queue = some q →
      get_shared_queue true "q" GState.fresh = .ok (q, GState.fresh)) ∧
    (∀ ops g1, runShared true GState.fresh ops = .ok g1 →
      g1.created.length ≤ 1) ∧
    (∃ g1 g2, enqueue_shared true 11 "q" GState.fresh = .ok (.ok (), g1) ∧
      dequeue_shared true "q" g1 = .ok (.ok 11, g2))) :=
  ⟨by decide, shared_binding_global true "q" GState.fresh 11 (by decide)⟩

/-- C7 counterexample: at process start with the provider unable to create
the region, get_shared_queue aborts the process through expect instead of
returning a RegionUnavailable result value. -/
theorem region_unavailable_counterexample :
    get_shared_queue false "main_queue" GState.fresh =
      .panic "Failed to create shared memory" := rfl

/-- C7 amended: when the backing allocation cannot be obtained on the first
access, get_shared_queue (and with it enqueue_shared and dequeue_shared)
terminates the process with the expect message Failed to create shared
memory; no RegionUnavailable result value exists.  Once a binding exists the
provider is no longer consulted and no failure arises. -/
theorem allocation_failure_panics (name : String) (g : GState) :
    (g.shared_queue = none →
      get_shared_queue false name g = .panic "Failed to create shared memory" ∧
      enqueue_shared false 0 name g = .panic "Failed to create shared memory" ∧
      dequeue_shared false name g = .panic "Failed to create shared memory") ∧
    (∀ q, g.shared_queue = some q →
      get_shared_queue false name g = .ok (q, g)) := by
  constructor
  · intro h
    have hg : get_shared_queue false name g =
        .panic "Failed to create shared memory" := by
      unfold get_shared_queue
      rw [h]
      rfl
    refine ⟨hg, ?_, ?_⟩
    · unfold enqueue_shared
      rw [hg]
    · unfold dequeue_shared
      rw [hg]
  · intro q h
    unfold get_shared_queue
    rw [h]

/-- Witness for C7 amended at a fresh process and the demo name. -/
theorem allocation_failure_panics_witness :
    ((GState.fresh.shared_queue = none →
      get_shared_queue false "main_queue" GState.fresh =
        .panic "Failed to create shared memory" ∧
      enqueue_shared false 0 "main_queue" GState.fresh =
        .panic "Failed to create shared memory" ∧
      dequeue_shared false "main_queue" GState.fresh =
        .panic "Failed to create shared memory") ∧
    (∀ q, GState.fresh.shared_queue = some q →
      get_shared_queue false "main_queue" GState.fresh = .ok (q, GState.fresh))) :=
  allocation_failure_panics "main_queue" GState.fresh

end QPort
